import Mathlib

/-
  Verification development for the svm repository (Go): a shallow embedding
  of its version-resolution, installation-orchestration, configuration and
  environment logic, together with theorems about the embedded functions.

  Modelling conventions, used throughout:
  * Go strings are Lean `String`s; in this toolchain a `String` is a
    structure over `List Char`, so the Go byte-level operations on the
    ASCII strings handled by the program coincide with the character-level
    operations used here (`len`, indexing, HasPrefix, TrimPrefix, Split).
  * Go `[]int` is `List Int`, Go `(T, bool)` is `T × Bool`,
    Go `(T, error)` is `Option T` (`none` = error) or, for state-mutating
    operations, `Option String × State` (first component: error message).
  * Go maps are association lists with single-key replacement semantics
    (`assocSet`); a `nil` map and an empty map are observationally
    indistinguishable through the config accessors of config.go, so both
    are modelled as `[]`.
  * The filesystem is modelled as the set of existing paths plus the set
    of symbolic links; `os.Stat` follows one level of links.
-/

namespace SVM

/-! ## Go string primitives (strings.HasPrefix / TrimPrefix / Contains / Split / ToLower) -/

/-- Go strings.HasPrefix. -/
def strStartsWith (s pre : String) : Bool :=
  pre.data.isPrefixOf s.data

/-- Go strings.HasSuffix. -/
def strEndsWith (s suf : String) : Bool :=
  suf.data.isSuffixOf s.data

/-- Go strings.TrimPrefix: removes the leading `pre` when present, else identity. -/
def strTrimStart (s pre : String) : String :=
  if strStartsWith s pre then ⟨s.data.drop pre.data.length⟩ else s

/-- Go strings.ToLower (ASCII adequate for the version strings involved). -/
def strToLower (s : String) : String :=
  ⟨s.data.map Char.toLower⟩

/-- Substring occurrence on character lists; `strings.Contains` is `listContainsSub pat.data s.data`. -/
def listContainsSub (pat : List Char) : List Char → Bool
  | [] => pat.isEmpty
  | c :: rest => pat.isPrefixOf (c :: rest) || listContainsSub pat rest

/-- Go strings.Contains. -/
def strContains (s pat : String) : Bool :=
  listContainsSub pat.data s.data

/-- Helper for `splitOnChar`: accumulates the current field (reversed). -/
def splitOnCharAux (sep : Char) : List Char → List Char → List String
  | [], acc => [⟨acc.reverse⟩]
  | c :: rest, acc =>
      if c = sep then ⟨acc.reverse⟩ :: splitOnCharAux sep rest []
      else splitOnCharAux sep rest (c :: acc)

/-- Go strings.Split with a one-character separator. -/
def splitOnChar (sep : Char) (s : String) : List String :=
  splitOnCharAux sep s.data []

/-- POSIX filepath.Join for the two-argument uses in the repository. -/
def pathJoin (a b : String) : String :=
  a ++ "/" ++ b

/-! ## strconv.Atoi -/

/-- Value of a decimal digit character, `none` for a non-digit. -/
def digitVal (c : Char) : Option Nat :=
  if '0' ≤ c ∧ c ≤ '9' then some (c.toNat - '0'.toNat) else none

/-- Decimal value of a non-empty digit string; `none` when empty or a non-digit occurs. -/
def digitsVal : List Char → Option Nat
  | [] => none
  | [c] => digitVal c
  | c :: rest =>
      match digitVal c, digitsVal rest with
      | some d, some n => some (d * 10 ^ rest.length + n)
      | _, _ => none

/-- Go strconv.Atoi: optional sign followed by at least one digit. -/
def atoi (s : String) : Option Int :=
  match s.data with
  | '-' :: rest => (digitsVal rest).map (fun n => -(n : Int))
  | '+' :: rest => (digitsVal rest).map (fun n => (n : Int))
  | l => (digitsVal l).map (fun n => (n : Int))

/-! ## Version parsing and comparison (version.go) -/

/-- utils.ParseVersion: strips a leading "v", splits on ".", `strconv.Atoi` on every
component, failing if any component fails. -/
def ParseVersion (version : String) : Option (List Int) :=
  let v := if strStartsWith version "v" then ⟨version.data.drop 1⟩ else version
  (splitOnChar '.' v).mapM atoi

/-- utils.CompareVersions: lexicographic over the shared length, then the longer
list is greater; returns -1, 0 or 1. -/
def CompareVersions : List Int → List Int → Int
  | [], [] => 0
  | [], _ :: _ => -1
  | _ :: _, [] => 1
  | a :: as, b :: bs =>
      if a < b then -1
      else if b < a then 1
      else CompareVersions as bs

/-! ## Version resolution (fs_helper.go, FindBestMatchingVersion) -/

/-- The normalization applied to both the request and every candidate:
strip `strip` when it is non-empty and is a leading part of the string. -/
def normalizeVersion (strip v : String) : String :=
  if strip ≠ "" ∧ strStartsWith v strip then strTrimStart v strip else v

/-- A candidate is "stable" when its lowercase form contains none of
"rc", "alpha", "beta". -/
def isStableVersion (v : String) : Bool :=
  let lower := strToLower v
  !(strContains lower "rc") && !(strContains lower "alpha") && !(strContains lower "beta")

/-- The closest-version accumulator loop of FindBestMatchingVersion step 3:
walks the candidates, initializing the accumulator with the first parsable
candidate and afterwards replacing it by any candidate that parses, is ≤ the
request and is greater than the accumulator. -/
def closestLoop (strip : String) (reqParts : List Int) :
    List String → Option (String × List Int) → Option (String × List Int)
  | [], acc => acc
  | v :: rest, acc =>
      let n := normalizeVersion strip v
      let toParse := strTrimStart n "v"
      match ParseVersion toParse with
      | none => closestLoop strip reqParts rest acc
      | some vParts =>
          match acc with
          | none => closestLoop strip reqParts rest (some (v, vParts))
          | some (c, cParts) =>
              if CompareVersions vParts reqParts ≤ 0 ∧ CompareVersions vParts cParts > 0 then
                closestLoop strip reqParts rest (some (v, vParts))
              else
                closestLoop strip reqParts rest (some (c, cParts))

/-- utils.FindBestMatchingVersion: exact match, short-token (≤ 2 chars) dotted
position-match, v-stripped exact match, closest-version scan, stable fallback,
first-candidate fallback, in that order. -/
def FindBestMatchingVersion (requestedVersion : String) (availableVersions : List String)
    (strip : String) : String × Bool :=
  if availableVersions.isEmpty then ("", false)
  else
    let req := normalizeVersion strip requestedVersion
    match availableVersions.find? (fun v => normalizeVersion strip v == req) with
    | some v => (v, true)
    | none =>
      match (if req.length ≤ 2 then
               availableVersions.find? (fun v =>
                 let n := normalizeVersion strip v
                 strStartsWith n (req ++ ".") || n == req)
             else none) with
      | some v => (v, true)
      | none =>
        match (if strStartsWith req "v" then
                 availableVersions.find? (fun v =>
                   strTrimStart (normalizeVersion strip v) "v" == strTrimStart req "v")
               else none) with
        | some v => (v, true)
        | none =>
          let toParse := strTrimStart req "v"
          match ParseVersion toParse with
          | none =>
            match availableVersions.find? isStableVersion with
            | some v => (v, true)
            | none => (availableVersions.headD "", true)
          | some reqParts =>
            match closestLoop strip reqParts availableVersions none with
            | some (c, _) => (c, true)
            | none =>
              match availableVersions.find? isStableVersion with
              | some v => (v, true)
              | none => (availableVersions.headD "", true)

/-- utils.GetNextVersionFromList: the element following the first occurrence of
`currentVersion` that has a successor; Go's index check makes a match in the
last position fall through to the not-found result. -/
def GetNextVersionFromList (currentVersion : String) : List String → String × Bool
  | [] => ("", false)
  | v :: rest =>
      if v == currentVersion then
        match rest with
        | [] => ("", false)
        | n :: _ => (n, true)
      else GetNextVersionFromList currentVersion rest

/-! ## Association lists with Go-map semantics -/

/-- Go map read: value of the (unique) entry with key `k`. -/
def assocGet {α : Type} (m : List (String × α)) (k : String) : Option α :=
  (m.find? (fun p => p.1 == k)).map (fun p => p.2)

/-- Go map write: replace the entry with key `k`, or add one. -/
def assocSet {α : Type} : List (String × α) → String → α → List (String × α)
  | [], k, v => [(k, v)]
  | (k1, v1) :: rest, k, v =>
      if k1 == k then (k, v) :: rest else (k1, v1) :: assocSet rest k v

/-- Go map delete. -/
def assocRemove {α : Type} (m : List (String × α)) (k : String) : List (String × α) :=
  m.filter (fun p => !(p.1 == k))

/-! ## Persisted configuration (config.go)

`Save` always persists successfully in this model, so the mutators return the
new `Config` value directly.  Go `nil` maps/slices behave exactly like empty
ones through every accessor of config.go, so both are modelled as `[]`. -/

/-- config.EnvVar. -/
structure EnvVar where
  Key : String
  Value : String
deriving DecidableEq

/-- config.SDKVersionInfo. -/
structure SDKVersionInfo where
  InstallDir : String
  CacheFilePath : String
deriving DecidableEq

/-- config.SDKConfig. -/
structure SDKConfig where
  CurrentVersion : String
  EnvVars : List EnvVar
  VersionCache : List (String × SDKVersionInfo)
deriving DecidableEq

/-- config.Config. -/
structure Config where
  InstallDir : String
  CurrentVersions : List (String × String)
  SDKs : List (String × SDKConfig)
deriving DecidableEq

/-- The zero SDKConfig created by the `make`-initialized literals in config.go. -/
def emptySDKConfig : SDKConfig :=
  ⟨"", [], []⟩

/-- Config.GetCurrentVersion: the SDK's CurrentVersion when set, else the
legacy CurrentVersions entry (missing key reads as ""). -/
def GetCurrentVersion (c : Config) (sdk : String) : String :=
  match assocGet c.SDKs sdk with
  | some sc => if sc.CurrentVersion ≠ "" then sc.CurrentVersion
               else (assocGet c.CurrentVersions sdk).getD ""
  | none => (assocGet c.CurrentVersions sdk).getD ""

/-- Config.SetCurrentVersion: writes both the legacy map and the SDK entry,
creating the SDK entry when absent. -/
def SetCurrentVersion (c : Config) (sdk version : String) : Config :=
  let cvs := assocSet c.CurrentVersions sdk version
  let sdks0 := if (assocGet c.SDKs sdk).isNone then assocSet c.SDKs sdk emptySDKConfig
               else c.SDKs
  let sc := (assocGet sdks0 sdk).getD emptySDKConfig
  ⟨c.InstallDir, cvs, assocSet sdks0 sdk { sc with CurrentVersion := version }⟩

/-- Config.GetVersionInfo. -/
def GetVersionInfo (c : Config) (sdk version : String) : Option SDKVersionInfo :=
  match assocGet c.SDKs sdk with
  | none => none
  | some sc => assocGet sc.VersionCache version

/-- Config.SetVersionInfo: creates the SDK entry when absent, sets the cache
entry, and mirrors a non-empty CurrentVersion into the legacy map. -/
def SetVersionInfo (c : Config) (sdk version : String) (info : SDKVersionInfo) : Config :=
  let sdks0 := if (assocGet c.SDKs sdk).isNone then assocSet c.SDKs sdk emptySDKConfig
               else c.SDKs
  let sc := (assocGet sdks0 sdk).getD emptySDKConfig
  let sc1 := { sc with VersionCache := assocSet sc.VersionCache version info }
  let cvs := if sc1.CurrentVersion ≠ "" then assocSet c.CurrentVersions sdk sc1.CurrentVersion
             else c.CurrentVersions
  ⟨c.InstallDir, cvs, assocSet sdks0 sdk sc1⟩

/-- Config.GetSDKEnvVars. -/
def GetSDKEnvVars (c : Config) (sdk : String) : List EnvVar :=
  match assocGet c.SDKs sdk with
  | none => []
  | some sc => sc.EnvVars

/-- Config.SetSDKEnvVars. -/
def SetSDKEnvVars (c : Config) (sdk : String) (envVars : List EnvVar) : Config :=
  let sdks0 := if (assocGet c.SDKs sdk).isNone then assocSet c.SDKs sdk emptySDKConfig
               else c.SDKs
  let sc := (assocGet sdks0 sdk).getD emptySDKConfig
  ⟨c.InstallDir, c.CurrentVersions, assocSet sdks0 sdk { sc with EnvVars := envVars }⟩

/-- Config.RemoveVersionInfo: drops the cache entry when present; when the
removed version was the SDK's CurrentVersion, clears it and deletes the
legacy map entry. -/
def RemoveVersionInfo (c : Config) (sdk version : String) : Config :=
  match assocGet c.SDKs sdk with
  | none => c
  | some sc =>
      if (assocGet sc.VersionCache version).isNone then c
      else
        let sc1 := { sc with VersionCache := assocRemove sc.VersionCache version }
        if sc.CurrentVersion == version then
          ⟨c.InstallDir, assocRemove c.CurrentVersions sdk,
           assocSet c.SDKs sdk { sc1 with CurrentVersion := "" }⟩
        else
          ⟨c.InstallDir, c.CurrentVersions, assocSet c.SDKs sdk sc1⟩

/-! ## Filesystem model

`dirs` is the set of existing paths (directories and files alike),
`links` maps a symlink path to its target.  `os.Stat` follows one level of
links; `os.RemoveAll` deletes a path and everything below it. -/

/-- The filesystem state. -/
structure FS where
  dirs : List String
  links : List (String × String)
deriving DecidableEq

/-- os.Stat succeeding (the path exists, following a symlink to an existing target). -/
def fsStat (fs : FS) (p : String) : Bool :=
  fs.dirs.contains p || fs.links.any (fun l => l.1 == p && fs.dirs.contains l.2)

/-- Whether anything exists strictly below directory `d`. -/
def fsHasChild (fs : FS) (d : String) : Bool :=
  fs.dirs.any (fun q => strStartsWith q (d ++ "/")) ||
  fs.links.any (fun l => strStartsWith l.1 (d ++ "/"))

/-- os.RemoveAll: delete `p` and its whole subtree (always succeeds). -/
def fsRemoveAll (fs : FS) (p : String) : FS :=
  ⟨fs.dirs.filter (fun q => !(q == p || strStartsWith q (p ++ "/"))),
   fs.links.filter (fun l => !(l.1 == p || strStartsWith l.1 (p ++ "/")))⟩

/-- os.Remove on Unix: unlink a symlink, or delete an empty directory;
fails (`none`) on a non-empty directory or a missing path. -/
def fsOsRemove (fs : FS) (p : String) : Option FS :=
  if fs.links.any (fun l => l.1 == p) then
    some ⟨fs.dirs, fs.links.filter (fun l => !(l.1 == p))⟩
  else if fs.dirs.contains p then
    if fsHasChild fs p then none
    else some ⟨fs.dirs.filter (fun q => !(q == p)), fs.links⟩
  else none

/-- os.Symlink: fails when anything already exists at the link path. -/
def fsSymlink (fs : FS) (target linkPath : String) : Option FS :=
  if fs.dirs.contains linkPath || fs.links.any (fun l => l.1 == linkPath) then none
  else some ⟨fs.dirs, (linkPath, target) :: fs.links⟩

/-- Target of the symlink at `p`, when one exists. -/
def linkTarget (fs : FS) (p : String) : Option String :=
  (fs.links.find? (fun l => l.1 == p)).map (fun l => l.2)

/-! ## Environment applier (env_manager.go) -/

/-- utils.EnvManager. -/
structure EnvManager where
  Name : String
  HomeVar : String
  HomePath : String
  BinPath : String
  ExcludeKeywords : List String
  ExtraVars : List (String × String)
deriving DecidableEq

/-- The PATH mutation of setUnixEnv: `BinPath + separator + oldPATH`, i.e. the
bin path is prepended and nothing is removed. -/
def setUnixEnvPATH (e : EnvManager) (path : List String) : List String :=
  e.BinPath :: path

/-- Case-insensitive exclude-keyword test used by setWindowsEnv. -/
def keywordMatch (kws : List String) (p : String) : Bool :=
  kws.any (fun kw => strContains (strToLower p) (strToLower kw))

/-- The PATH mutation of setWindowsEnv: drop empty segments and every segment
containing an exclude keyword, then prepend the bin path. -/
def setWindowsEnvPATH (e : EnvManager) (paths : List String) : List String :=
  e.BinPath :: paths.filter (fun p => !(p == "") && !(keywordMatch e.ExcludeKeywords p))

/-- The extra-variable loop of setUnixEnv; `os.Setenv` fails exactly on an
empty key, leaving the variables set so far in place. -/
def applyExtraVars : List (String × String) → List (String × String) →
    Option String × List (String × String)
  | [], env => (none, env)
  | (k, v) :: rest, env =>
      if k == "" then (some "setenv failed", env)
      else applyExtraVars rest (assocSet env k v)

/-- EnvManager.setUnixEnv over the process environment (`env` = non-PATH
variables, `path` = PATH segments): set the HOME variable (os.Setenv fails on
an empty name), prepend BinPath to PATH, then set the extra variables. -/
def setUnixEnv (e : EnvManager) (env : List (String × String)) (path : List String) :
    Option String × (List (String × String) × List String) :=
  if e.HomeVar == "" then (some "setenv failed", (env, path))
  else
    let env1 := assocSet env e.HomeVar e.HomePath
    let path1 := setUnixEnvPATH e path
    let res := applyExtraVars e.ExtraVars env1
    (res.1, (res.2, path1))

/-! ## BaseSDK operations (sdk.go) -/

/-- The identity of a BaseSDK: its name and per-toolchain install root. -/
structure BaseSDK where
  Name : String
  InstallDir : String
deriving DecidableEq

/-- The whole mutable world an SDK operation touches: the persisted
configuration, the filesystem, and the process environment. -/
structure SDKState where
  config : Config
  fs : FS
  procEnv : List (String × String)
  procPath : List String
deriving DecidableEq

/-- BaseSDK.GetCachedFile: miss when no record or empty CacheFilePath, miss
when the recorded file no longer exists, hit otherwise. -/
def GetCachedFile (b : BaseSDK) (st : SDKState) (version : String) : String × Bool :=
  match GetVersionInfo st.config b.Name version with
  | none => ("", false)
  | some info =>
      if info.CacheFilePath == "" then ("", false)
      else if !(fsStat st.fs info.CacheFilePath) then ("", false)
      else (info.CacheFilePath, true)

/-- Whether a filename carries one of the platform-installer extensions the
repository's archive dispatch recognizes (.exe / .msi / .pkg). -/
def hasInstallerExt (p : String) : Bool :=
  strEndsWith p ".exe" || strEndsWith p ".msi" || strEndsWith p ".pkg"

/-- The cache-hit rule as the spec states it (to compare with `GetCachedFile`):
a hit requires a recorded path, an existing file, and a filename not carrying a
platform-installer extension. -/
def specCacheHit (b : BaseSDK) (st : SDKState) (version : String) : Bool :=
  match GetVersionInfo st.config b.Name version with
  | none => false
  | some info =>
      !(info.CacheFilePath == "") && fsStat st.fs info.CacheFilePath &&
        !(hasInstallerExt info.CacheFilePath)

/-- BaseSDK.RemoveSDKVersion: error when the version has no record or an
empty InstallDir; otherwise, when it is the current version, clear the stored
environment variables and the current-version binding, then delete the
install directory and blank the record's InstallDir (keeping CacheFilePath). -/
def RemoveSDKVersion (b : BaseSDK) (st : SDKState) (version : String) :
    Option String × SDKState :=
  match GetVersionInfo st.config b.Name version with
  | none => (some ("version " ++ version ++ " is not installed"), st)
  | some info =>
      if info.InstallDir == "" then
        (some ("version " ++ version ++ " is not installed"), st)
      else
        let cfg1 :=
          if GetCurrentVersion st.config b.Name == version then
            SetCurrentVersion (SetSDKEnvVars st.config b.Name []) b.Name ""
          else st.config
        let fs1 := fsRemoveAll st.fs info.InstallDir
        let cfg2 := SetVersionInfo cfg1 b.Name version { info with InstallDir := "" }
        (none, ⟨cfg2, fs1, st.procEnv, st.procPath⟩)

/-- The cleanup half of BaseSDK.FallthroughToNextVersion: delete the failed
version's install directory when it exists and drop its version record. -/
def fallthroughCleanup (b : BaseSDK) (st : SDKState) (currentVersion : String) : SDKState :=
  let dir := pathJoin b.InstallDir currentVersion
  let fs1 := if fsStat st.fs dir then fsRemoveAll st.fs dir else st.fs
  ⟨RemoveVersionInfo st.config b.Name currentVersion, fs1, st.procEnv, st.procPath⟩

/-- BaseSDK.FallthroughToNextVersion: clean up the failed version, then recurse
into `installer` on the next list entry, or fail terminally when there is none. -/
def FallthroughToNextVersion (b : BaseSDK) (st : SDKState) (currentVersion : String)
    (availableVersions : List String)
    (installer : String → SDKState → Option String × SDKState)
    (handlersRemove : String → String) : Option String × SDKState :=
  let st1 := fallthroughCleanup b st currentVersion
  let next := GetNextVersionFromList currentVersion availableVersions
  if next.2 then installer (handlersRemove next.1) st1
  else (some "no installable version found", st1)

/-- Result of classifying a toolchain's declared environment variables
(the loop in BaseSDK.SetupEnv). -/
structure EnvClassification where
  homeVar : String
  homePath : String
  binPath : String
  excludeKeywords : List String
  extraVars : List (String × String)
deriving DecidableEq

/-- The classification loop of BaseSDK.SetupEnv: a key ending in "_HOME" is the
home variable, key "PATH" is the bin path, key "EXCLUDE_KEYWORDS" is the
comma-separated keyword list, any other non-empty key/value pair is an extra
variable. -/
def classifyLoop : List EnvVar → EnvClassification → EnvClassification
  | [], acc => acc
  | ev :: rest, acc =>
      if strEndsWith ev.Key "_HOME" then
        classifyLoop rest { acc with homeVar := ev.Key, homePath := ev.Value }
      else if ev.Key == "PATH" then
        classifyLoop rest { acc with binPath := ev.Value }
      else if ev.Key == "EXCLUDE_KEYWORDS" then
        classifyLoop rest { acc with excludeKeywords := splitOnChar ',' ev.Value }
      else if ev.Key ≠ "" ∧ ev.Value ≠ "" then
        classifyLoop rest { acc with extraVars := assocSet acc.extraVars ev.Key ev.Value }
      else
        classifyLoop rest acc

/-- Classification of an environment-variable list, starting from all-empty
accumulators as in BaseSDK.SetupEnv. -/
def classifyEnvVars (envVars : List EnvVar) : EnvClassification :=
  classifyLoop envVars ⟨"", "", "", [], []⟩

/-- BaseSDK.SetupEnv (POSIX): require the "current" indirection to exist, ask
the provider for the environment variables, persist them, classify them
(defaulting the bin path to the provider's bin directory), apply them to the
process environment via setUnixEnv, and finally persist the current version. -/
def SetupEnv (b : BaseSDK) (configureEnv : String → String → Option (List EnvVar))
    (getBinDir : String → String) (st : SDKState) (version : String) :
    Option String × SDKState :=
  let currentDir := pathJoin b.InstallDir "current"
  if !(fsStat st.fs currentDir) then
    (some "current directory does not exist, run use first", st)
  else
    match configureEnv version currentDir with
    | none => (some "configure env failed", st)
    | some envVars =>
        let cfg1 := SetSDKEnvVars st.config b.Name envVars
        let cl := classifyEnvVars envVars
        let bp := if cl.binPath == "" then getBinDir currentDir else cl.binPath
        let em : EnvManager :=
          ⟨b.Name, cl.homeVar, cl.homePath, bp, cl.excludeKeywords, cl.extraVars⟩
        match setUnixEnv em st.procEnv st.procPath with
        | (some err, (env2, path2)) => (some err, ⟨cfg1, st.fs, env2, path2⟩)
        | (none, (env2, path2)) =>
            let cfg2 := SetCurrentVersion cfg1 b.Name version
            (none, ⟨cfg2, st.fs, env2, path2⟩)

/-- The tail of BaseSDK.Use after the version directory is known to exist:
remove any existing "current" entry, create the symlink, then set up the
environment (preceded by an extra SetCurrentVersion when environment
variables were already stored). -/
def useFinish (b : BaseSDK) (configureEnv : String → String → Option (List EnvVar))
    (getBinDir : String → String) (st : SDKState) (version versionDir : String) :
    Option String × SDKState :=
  let currentDir := pathJoin b.InstallDir "current"
  let removed := if fsStat st.fs currentDir then fsOsRemove st.fs currentDir else some st.fs
  match removed with
  | none => (some "failed to remove existing current entry", st)
  | some fs1 =>
      match fsSymlink fs1 versionDir currentDir with
      | none => (some "failed to create symlink", ⟨st.config, fs1, st.procEnv, st.procPath⟩)
      | some fs2 =>
          let st2 : SDKState := ⟨st.config, fs2, st.procEnv, st.procPath⟩
          match assocGet st.config.SDKs b.Name with
          | none => SetupEnv b configureEnv getBinDir st2 version
          | some sc =>
              if sc.EnvVars.length == 0 then SetupEnv b configureEnv getBinDir st2 version
              else
                let cfg1 := SetCurrentVersion st2.config b.Name version
                SetupEnv b configureEnv getBinDir ⟨cfg1, fs2, st.procEnv, st.procPath⟩ version

/-- BaseSDK.Use (POSIX): normalize the version, locate its install directory
(resolving through `getLatest` and auto-installing through `install` when
missing), then hand over to `useFinish`. -/
def Use (b : BaseSDK) (handlersAdd : String → String)
    (getLatest : SDKState → String → Option String)
    (install : String → SDKState → Option String × SDKState)
    (configureEnv : String → String → Option (List EnvVar))
    (getBinDir : String → String) (st : SDKState) (version0 : String) :
    Option String × SDKState :=
  let version := handlersAdd version0
  let versionDir := pathJoin b.InstallDir version
  if fsStat st.fs versionDir then
    useFinish b configureEnv getBinDir st version versionDir
  else
    match getLatest st version with
    | none => (some "failed to get version information", st)
    | some fullVersion =>
        let versionDir2 := pathJoin b.InstallDir fullVersion
        if fsStat st.fs versionDir2 then
          useFinish b configureEnv getBinDir st fullVersion versionDir2
        else
          match install fullVersion st with
          | (some err, st1) => (some err, st1)
          | (none, st1) => useFinish b configureEnv getBinDir st1 fullVersion versionDir2

/-- The activation scenario of an installed, currently linked version: the
version directory exists, nothing but the indirection occupies the "current"
path, and the "current" symlink points at the version directory. -/
abbrev ActiveReady (b : BaseSDK) (v : String) (st : SDKState) : Prop :=
  st.fs.dirs.contains (pathJoin b.InstallDir v) = true ∧
  st.fs.dirs.contains (pathJoin b.InstallDir "current") = false ∧
  linkTarget st.fs (pathJoin b.InstallDir "current") = some (pathJoin b.InstallDir v)

/-! ## Helper lemmas -/

theorem assocGet_set_self {α : Type} (m : List (String × α)) (k : String) (v : α) :
    assocGet (assocSet m k v) k = some v := by
  induction m with
  | nil => simp [assocSet, assocGet]
  | cons p t ih =>
      rcases p with ⟨k1, v1⟩
      by_cases h : k1 = k
      · simp [assocSet, h, assocGet]
      · have hb : (k1 == k) = false := by simp [h]
        simp [assocSet, hb, assocGet] at ih ⊢
        exact ih

theorem assocGet_remove_self {α : Type} (m : List (String × α)) (k : String) :
    assocGet (assocRemove m k) k = none := by
  induction m with
  | nil => rfl
  | cons p t ih =>
      rcases p with ⟨k1, v1⟩
      by_cases h : k1 = k
      · simp only [assocRemove, assocGet] at ih ⊢
        simp [h, ih]
      · have hb : (k1 == k) = false := by simp [h]
        simp only [assocRemove, assocGet] at ih ⊢
        simp [hb, ih]

theorem contains_filter_false (l : List String) (p : String) (f : String → Bool)
    (hf : f p = false) : (l.filter f).contains p = false := by
  cases hc : (l.filter f).contains p with
  | false => rfl
  | true =>
      have hm := List.mem_filter.mp (List.elem_iff.mp hc)
      rw [hm.2] at hf
      cases hf

theorem getCurrent_setCurrent (c : Config) (n v : String) :
    GetCurrentVersion (SetCurrentVersion c n v) n = v := by
  unfold GetCurrentVersion SetCurrentVersion
  by_cases hv : v = ""
  · simp [assocGet_set_self, hv]
  · simp [assocGet_set_self, hv]

theorem getVersionInfo_remove (c : Config) (n v : String) :
    GetVersionInfo (RemoveVersionInfo c n v) n v = none := by
  unfold RemoveVersionInfo
  cases hsdk : assocGet c.SDKs n with
  | none => simp [GetVersionInfo, hsdk]
  | some sc =>
      by_cases hvc : (assocGet sc.VersionCache v).isNone
      · simp only [hvc, if_true]
        simp only [GetVersionInfo, hsdk]
        exact Option.isNone_iff_eq_none.mp hvc
      · by_cases hcv : (sc.CurrentVersion == v) = true
        · simp [hvc, hcv, GetVersionInfo, assocGet_set_self, assocGet_remove_self]
        · simp only [Bool.not_eq_true] at hcv
          simp [hvc, hcv, GetVersionInfo, assocGet_set_self, assocGet_remove_self]

theorem fsStat_removeAll_self (fs : FS) (p : String) :
    fsStat (fsRemoveAll fs p) p = false := by
  unfold fsStat fsRemoveAll
  rw [Bool.or_eq_false_iff]
  constructor
  · exact contains_filter_false _ _ _ (by simp)
  · cases hl : ((fs.links.filter
        (fun l => !(l.1 == p || strStartsWith l.1 (p ++ "/")))).any
          (fun l => l.1 == p &&
            (fs.dirs.filter (fun q => !(q == p || strStartsWith q (p ++ "/")))).contains l.2)) with
    | false => rfl
    | true =>
        obtain ⟨l, hml, hcond⟩ := List.any_eq_true.mp hl
        have hg := (List.mem_filter.mp hml).2
        have h1 : (l.1 == p) = true := by
          cases hlp : (l.1 == p) with
          | true => rfl
          | false => rw [hlp] at hcond; cases hcond
        simp [h1] at hg

theorem cv_self (a : List Int) : CompareVersions a a = 0 := by
  induction a with
  | nil => rfl
  | cons x t ih => simp [CompareVersions, ih]

theorem cv_swap (a : List Int) : ∀ b : List Int,
    CompareVersions a b = - CompareVersions b a := by
  induction a with
  | nil => intro b; cases b <;> simp [CompareVersions]
  | cons x t ih =>
      intro b
      cases b with
      | nil => simp [CompareVersions]
      | cons y s =>
          simp only [CompareVersions]
          split_ifs <;> first | omega | exact ih s

theorem cv_trans_neg (a : List Int) : ∀ b c : List Int,
    CompareVersions a b = -1 → CompareVersions b c = -1 → CompareVersions a c = -1 := by
  induction a with
  | nil =>
      intro b c hab hbc
      cases b with
      | nil => simp [CompareVersions] at hab
      | cons y s =>
          cases c with
          | nil => simp [CompareVersions] at hbc
          | cons z u => rfl
  | cons x t ih =>
      intro b c hab hbc
      cases b with
      | nil => simp [CompareVersions] at hab
      | cons y s =>
          cases c with
          | nil => simp [CompareVersions] at hbc
          | cons z u =>
              simp only [CompareVersions] at hab hbc ⊢
              split_ifs at hab hbc ⊢ <;> first | omega | exact ih s u hab hbc

theorem cv_append_lt (a t : List Int) (h : t ≠ []) :
    CompareVersions a (a ++ t) = -1 := by
  induction a with
  | nil =>
      cases t with
      | nil => exact absurd rfl h
      | cons z u => rfl
  | cons x s ih => simp [CompareVersions, ih]

theorem find_or_right_false {α : Type} (p q : α → Bool) (l : List α)
    (hq : ∀ x ∈ l, q x = false) :
    l.find? (fun x => p x || q x) = l.find? p := by
  induction l with
  | nil => rfl
  | cons a t ih =>
      have ha := hq a (by simp)
      have iht := ih (fun x hx => hq x (by simp [hx]))
      cases hpa : p a <;> simp [List.find?, hpa, ha, iht]

/-! ## Claim theorems -/

/-- Claim C1 (code bug): the closest-below rule of FindBestMatchingVersion does
not return the greatest candidate ≤ the request.  For the request "1.0" over
descending candidates ["2.0", "1.5", "0.9"] it returns "2.0" — a candidate
strictly greater than the request (CompareVersions [2,0] [1,0] = 1) — because
the accumulator is initialized with the first parsable candidate without the
≤-check; the function's own doc comment promises the newest version ≤ the
request.  On the spec's example the same slip selects "1.20.3" inside rule 5
instead of falling through to the stable fallback. -/
theorem c1_closest_below_eval :
    FindBestMatchingVersion "1.0" ["2.0", "1.5", "0.9"] "" = ("2.0", true) ∧
    ParseVersion "1.0" = some [1, 0] ∧
    ParseVersion "2.0" = some [2, 0] ∧
    ParseVersion "0.9" = some [0, 9] ∧
    CompareVersions [2, 0] [1, 0] = 1 ∧
    CompareVersions [0, 9] [1, 0] = -1 ∧
    FindBestMatchingVersion "1.20" ["1.20.3", "1.20.1", "1.19.5"] "" = ("1.20.3", true) := by
  decide

/-- Claim C2 counterexample: on POSIX the environment applier does not remove
exclude-keyword segments.  With EXCLUDE_KEYWORDS ["foo"], bin path
"/opt/foo/bin" and initial PATH ["/usr/bin"], applying setUnixEnv's PATH
mutation twice leaves two keyword-containing segments (not at most one) and
two instances of the bin path (not exactly one). -/
theorem c2_counterexample :
    ¬ (((setUnixEnvPATH ⟨"java", "JAVA_HOME", "/h", "/opt/foo/bin", ["foo"], []⟩
          (setUnixEnvPATH ⟨"java", "JAVA_HOME", "/h", "/opt/foo/bin", ["foo"], []⟩
            ["/usr/bin"])).filter (fun s => keywordMatch ["foo"] s)).length ≤ 1) ∧
    (setUnixEnvPATH ⟨"java", "JAVA_HOME", "/h", "/opt/foo/bin", ["foo"], []⟩
        (setUnixEnvPATH ⟨"java", "JAVA_HOME", "/h", "/opt/foo/bin", ["foo"], []⟩
          ["/usr/bin"])).count "/opt/foo/bin" ≠ 1 := by
  decide

/-- Claim C2 (amended): setUnixEnv only prepends the bin path to PATH and
removes nothing, so applying it twice adds two copies of the bin path and
preserves every keyword-containing segment; the remove-then-prepend behavior
the claim describes is implemented only in the Windows branch, where applying
it twice leaves exactly the bin path itself as the only possible
keyword-containing segment. -/
theorem c2_unix_env_prepend_only (e : EnvManager) (p : List String) :
    (setUnixEnvPATH e (setUnixEnvPATH e p)).count e.BinPath = p.count e.BinPath + 2 ∧
    (setUnixEnvPATH e (setUnixEnvPATH e p)).filter (fun s => keywordMatch e.ExcludeKeywords s) =
      (if keywordMatch e.ExcludeKeywords e.BinPath then [e.BinPath, e.BinPath] else []) ++
        p.filter (fun s => keywordMatch e.ExcludeKeywords s) ∧
    (setWindowsEnvPATH e (setWindowsEnvPATH e p)).filter
        (fun s => keywordMatch e.ExcludeKeywords s) =
      (if keywordMatch e.ExcludeKeywords e.BinPath then [e.BinPath] else []) := by
  refine ⟨?_, ?_, ?_⟩
  · simp [setUnixEnvPATH, List.count_cons]
  · by_cases hk : keywordMatch e.ExcludeKeywords e.BinPath <;>
      simp [setUnixEnvPATH, List.filter_cons, hk]
  · have hrest : ∀ l : List String,
        ((l.filter (fun q => !(q == "") && !(keywordMatch e.ExcludeKeywords q))).filter
          (fun s => keywordMatch e.ExcludeKeywords s)) = [] := by
      intro l
      induction l with
      | nil => rfl
      | cons a t ih =>
          by_cases ha : keywordMatch e.ExcludeKeywords a <;>
            by_cases he : (a == "") = true <;>
              simp [List.filter_cons, ha, he, ih]
    by_cases hk : keywordMatch e.ExcludeKeywords e.BinPath <;>
      by_cases hbe : (e.BinPath == "") = true <;>
        simp [setWindowsEnvPATH, List.filter_cons, hk, hbe, hrest]

/-- Claim C5 counterexample: GetCachedFile performs no installer-extension
check.  With a recorded cache path "/svm/cache/python/python-3.9.1.msi" whose
file exists, GetCachedFile reports a hit although the filename carries a
platform-installer extension, so the spec's hit rule (specCacheHit) disagrees. -/
theorem c5_counterexample :
    GetCachedFile ⟨"python", "/svm/python"⟩
        ⟨⟨"/svm", [("python", "3.9.1")],
          [("python", ⟨"3.9.1", [],
            [("3.9.1", ⟨"/svm/python/3.9.1", "/svm/cache/python/python-3.9.1.msi"⟩)]⟩)]⟩,
         ⟨["/svm/cache/python/python-3.9.1.msi"], []⟩, [], []⟩ "3.9.1" =
      ("/svm/cache/python/python-3.9.1.msi", true) ∧
    specCacheHit ⟨"python", "/svm/python"⟩
        ⟨⟨"/svm", [("python", "3.9.1")],
          [("python", ⟨"3.9.1", [],
            [("3.9.1", ⟨"/svm/python/3.9.1", "/svm/cache/python/python-3.9.1.msi"⟩)]⟩)]⟩,
         ⟨["/svm/cache/python/python-3.9.1.msi"], []⟩, [], []⟩ "3.9.1" = false := by
  decide

/-- Claim C5 (amended): the cache lookup reports a hit exactly when a
CacheFilePath is recorded and the file still exists on disk; no
filename-extension condition is part of the rule. -/
theorem c5_cache_hit_iff (b : BaseSDK) (st : SDKState) (v : String) :
    (GetCachedFile b st v).2 = true ↔
      ∃ info, GetVersionInfo st.config b.Name v = some info ∧
        info.CacheFilePath ≠ "" ∧ fsStat st.fs info.CacheFilePath = true := by
  unfold GetCachedFile
  cases h : GetVersionInfo st.config b.Name v with
  | none => simp
  | some info =>
      by_cases h1 : info.CacheFilePath = "" <;>
        by_cases h2 : fsStat st.fs info.CacheFilePath = true <;>
          simp [h1, h2]

/-- Claim C9: for every non-empty candidate list and every request string,
FindBestMatchingVersion reports found = true; not-found occurs only on an
empty candidate list. -/
theorem c9_nonempty_always_found (req strip : String) (versions : List String)
    (h : versions ≠ []) : (FindBestMatchingVersion req versions strip).2 = true := by
  unfold FindBestMatchingVersion
  cases versions with
  | nil => exact absurd rfl h
  | cons a t =>
      simp only [List.isEmpty_cons, Bool.false_eq_true, if_false]
      (repeat' split) <;> rfl

/-- Claim C9 witness: the concrete request "zzz" over a one-element list is
resolved with found = true. -/
theorem c9_witness :
    (["3.1.4"] : List String) ≠ [] ∧
      (FindBestMatchingVersion "zzz" ["3.1.4"] "").2 = true :=
  ⟨by decide, c9_nonempty_always_found "zzz" "" ["3.1.4"] (by decide)⟩

/-- Claim C10: removal of a version whose record is absent or has an empty
InstallDir returns an error and leaves the whole state (configuration,
filesystem and process environment) unchanged. -/
theorem c10_remove_not_installed (b : BaseSDK) (st : SDKState) (v : String)
    (h : ∀ info, GetVersionInfo st.config b.Name v = some info → info.InstallDir = "") :
    (RemoveSDKVersion b st v).1.isSome = true ∧ (RemoveSDKVersion b st v).2 = st := by
  unfold RemoveSDKVersion
  cases hgv : GetVersionInfo st.config b.Name v with
  | none => simp
  | some info =>
      have hd := h info hgv
      simp [hd]

/-- Claim C10 witness: removing version "1.0" of an SDK with an empty
configuration errors out and leaves the state untouched. -/
theorem c10_witness :
    (RemoveSDKVersion ⟨"go", "/svm/go"⟩ ⟨⟨"/svm", [], []⟩, ⟨[], []⟩, [], []⟩ "1.0").1.isSome
        = true ∧
      (RemoveSDKVersion ⟨"go", "/svm/go"⟩ ⟨⟨"/svm", [], []⟩, ⟨[], []⟩, [], []⟩ "1.0").2 =
        ⟨⟨"/svm", [], []⟩, ⟨[], []⟩, [], []⟩ :=
  c10_remove_not_installed ⟨"go", "/svm/go"⟩ ⟨⟨"/svm", [], []⟩, ⟨[], []⟩, [], []⟩ "1.0"
    (by intro info hinfo
        rw [show GetVersionInfo (⟨"/svm", [], []⟩ : Config) "go" "1.0" = none from by decide]
          at hinfo
        cases hinfo)

/-- Claim C4: on download failure the fallthrough deletes the failed version's
install directory and drops its version record, then recurses the installer on
the entry immediately following the failed version in the candidate list; when
the failed version is last or absent, no next version is found and the
terminal no-installable-version error is returned instead of recursing. -/
theorem c4_fallthrough_next_version :
    (∀ (cur next : String) (pre rest : List String), cur ∉ pre →
        GetNextVersionFromList cur (pre ++ cur :: next :: rest) = (next, true)) ∧
    (∀ (cur : String) (avail : List String), cur ∉ avail.dropLast →
        (GetNextVersionFromList cur avail).2 = false) ∧
    (∀ (b : BaseSDK) (st : SDKState) (cur next : String) (avail : List String)
        (installer : String → SDKState → Option String × SDKState)
        (hrem : String → String),
        GetNextVersionFromList cur avail = (next, true) →
        FallthroughToNextVersion b st cur avail installer hrem =
          installer (hrem next) (fallthroughCleanup b st cur)) ∧
    (∀ (b : BaseSDK) (st : SDKState) (cur : String) (avail : List String)
        (installer : String → SDKState → Option String × SDKState)
        (hrem : String → String),
        (GetNextVersionFromList cur avail).2 = false →
        FallthroughToNextVersion b st cur avail installer hrem =
          (some "no installable version found", fallthroughCleanup b st cur)) ∧
    (∀ (b : BaseSDK) (st : SDKState) (cur : String),
        GetVersionInfo (fallthroughCleanup b st cur).config b.Name cur = none ∧
        fsStat (fallthroughCleanup b st cur).fs (pathJoin b.InstallDir cur) = false) := by
  refine ⟨?_, ?_, ?_, ?_, ?_⟩
  · intro cur next pre rest
    induction pre with
    | nil => intro _; simp [GetNextVersionFromList]
    | cons p pre ih =>
        intro hpre
        simp only [List.mem_cons, not_or] at hpre
        have hp : (p == cur) = false := by simp [Ne.symm hpre.1]
        rw [List.cons_append]
        simp only [GetNextVersionFromList, hp, Bool.false_eq_true, if_false]
        exact ih (by simpa using hpre.2)
  · intro cur avail
    induction avail with
    | nil => intro _; rfl
    | cons a t ih =>
        intro h
        cases t with
        | nil =>
            by_cases ha : (a == cur) = true <;> simp [GetNextVersionFromList, ha]
        | cons a2 t2 =>
            rw [show (a :: a2 :: t2).dropLast = a :: (a2 :: t2).dropLast from rfl] at h
            simp only [List.mem_cons, not_or] at h
            have ha : (a == cur) = false := by simp [Ne.symm h.1]
            simp only [GetNextVersionFromList, ha, Bool.false_eq_true, if_false]
            exact ih (by simpa using h.2)
  · intro b st cur next avail installer hrem h
    simp [FallthroughToNextVersion, h]
  · intro b st cur avail installer hrem h
    simp [FallthroughToNextVersion, h]
  · intro b st cur
    constructor
    · simp [fallthroughCleanup, getVersionInfo_remove]
    · cases hstat : fsStat st.fs (pathJoin b.InstallDir cur) with
      | true => simp [fallthroughCleanup, hstat, fsStat_removeAll_self]
      | false => simp [fallthroughCleanup, hstat]

/-- Claim C4 witness: concrete runs of the parts of c4_fallthrough_next_version
that carry hypotheses, over the candidate list ["2.0", "1.5", "0.9"]. -/
theorem c4_witness :
    GetNextVersionFromList "1.5" (["2.0"] ++ "1.5" :: "0.9" :: []) = ("0.9", true) ∧
    (GetNextVersionFromList "0.9" ["2.0", "1.5", "0.9"]).2 = false ∧
    FallthroughToNextVersion ⟨"go", "/svm/go"⟩ ⟨⟨"/svm", [], []⟩, ⟨[], []⟩, [], []⟩ "0.9"
        ["2.0", "1.5", "0.9"] (fun _ s => (none, s)) (fun s => s) =
      (some "no installable version found",
        fallthroughCleanup ⟨"go", "/svm/go"⟩ ⟨⟨"/svm", [], []⟩, ⟨[], []⟩, [], []⟩ "0.9") :=
  ⟨c4_fallthrough_next_version.1 "1.5" "0.9" ["2.0"] [] (by decide),
   c4_fallthrough_next_version.2.1 "0.9" ["2.0", "1.5", "0.9"] (by decide),
   c4_fallthrough_next_version.2.2.2.1 ⟨"go", "/svm/go"⟩ ⟨⟨"/svm", [], []⟩, ⟨[], []⟩, [], []⟩
     "0.9" ["2.0", "1.5", "0.9"] (fun _ s => (none, s)) (fun s => s) (by decide)⟩

/-- Claim C7: when the normalized request is at most two characters long and
has no exact match, the resolver returns the first candidate whose normalized
form starts with the request followed by ".", with found = true; in particular
resolve("17", ["17.0.2","16.0.1"], "") = ("17.0.2", true) and
resolve("v16", ["v16.20.2","v14.21.3"], "v") = ("v16.20.2", true). -/
theorem c7_short_token_rule :
    (∀ (req strip w : String) (vs : List String),
        (∀ v ∈ vs, (normalizeVersion strip v == normalizeVersion strip req) = false) →
        (normalizeVersion strip req).length ≤ 2 →
        vs.find? (fun v =>
            strStartsWith (normalizeVersion strip v) (normalizeVersion strip req ++ ".")) =
          some w →
        FindBestMatchingVersion req vs strip = (w, true)) ∧
    FindBestMatchingVersion "17" ["17.0.2", "16.0.1"] "" = ("17.0.2", true) ∧
    FindBestMatchingVersion "v16" ["v16.20.2", "v14.21.3"] "v" = ("v16.20.2", true) := by
  refine ⟨?_, by decide, by decide⟩
  intro req strip w vs hne hlen hfind
  have hvs : vs ≠ [] := by
    rintro rfl
    simp [List.find?] at hfind
  obtain ⟨a, t, rfl⟩ : ∃ a t, vs = a :: t := by
    cases vs with
    | nil => exact absurd rfl hvs
    | cons a t => exact ⟨a, t, rfl⟩
  have hexact : (a :: t).find?
      (fun v => normalizeVersion strip v == normalizeVersion strip req) = none :=
    List.find?_eq_none.mpr (fun x hx => by simp [hne x hx])
  have hshort := find_or_right_false
      (fun v => strStartsWith (normalizeVersion strip v) (normalizeVersion strip req ++ "."))
      (fun v => normalizeVersion strip v == normalizeVersion strip req) (a :: t) hne
  rw [hfind] at hshort
  unfold FindBestMatchingVersion
  simp only [List.isEmpty_cons, Bool.false_eq_true, if_false, hexact, hlen, if_true, hshort]

/-- Claim C7 witness: a concrete run of the general short-token rule at
request "17" over ["17.0.2", "16.0.1"]. -/
theorem c7_witness :
    FindBestMatchingVersion "17" ["17.0.2", "16.0.1"] "" = ("17.0.2", true) :=
  c7_short_token_rule.1 "17" "" "17.0.2" ["17.0.2", "16.0.1"]
    (by decide) (by decide) (by decide)

/-- Claim C8: for parsable version strings, CompareVersions on the parsed
integer sequences is reflexive-zero, antisymmetric, transitive, and a proper
prefix compares less than (and the longer extension greater than) the
shorter sequence. -/
theorem c8_compare_total_order (sa sb sc : String) (a b c : List Int)
    (ha : ParseVersion sa = some a) (hb : ParseVersion sb = some b)
    (hc : ParseVersion sc = some c) :
    CompareVersions a a = 0 ∧
    CompareVersions a b = - CompareVersions b a ∧
    (CompareVersions a b = -1 → CompareVersions b c = -1 → CompareVersions a c = -1) ∧
    (∀ t : List Int, t ≠ [] →
        CompareVersions a (a ++ t) = -1 ∧ CompareVersions (a ++ t) a = 1) := by
  refine ⟨cv_self a, cv_swap a b, cv_trans_neg a b c, ?_⟩
  intro t ht
  refine ⟨cv_append_lt a t ht, ?_⟩
  have h1 := cv_swap (a ++ t) a
  rw [cv_append_lt a t ht] at h1
  simpa using h1

/-- Claim C8 witness: the total-order properties at the concrete parses of
"1.2", "1.2.5" and "2.0". -/
theorem c8_witness :
    ParseVersion "1.2" = some [1, 2] ∧ ParseVersion "1.2.5" = some [1, 2, 5] ∧
    ParseVersion "2.0" = some [2, 0] ∧
    (CompareVersions [1, 2] [1, 2] = 0 ∧
     CompareVersions [1, 2] [1, 2, 5] = - CompareVersions [1, 2, 5] [1, 2] ∧
     (CompareVersions [1, 2] [1, 2, 5] = -1 → CompareVersions [1, 2, 5] [2, 0] = -1 →
        CompareVersions [1, 2] [2, 0] = -1) ∧
     (∀ t : List Int, t ≠ [] →
        CompareVersions [1, 2] ([1, 2] ++ t) = -1 ∧
          CompareVersions ([1, 2] ++ t) [1, 2] = 1)) :=
  ⟨by decide, by decide, by decide,
   c8_compare_total_order "1.2" "1.2.5" "2.0" [1, 2] [1, 2, 5] [2, 0]
     (by decide) (by decide) (by decide)⟩

theorem mem_assocSet {α : Type} (m : List (String × α)) (k : String) (v : α) :
    ∀ kv ∈ assocSet m k v, kv.1 = k ∨ kv ∈ m := by
  induction m with
  | nil =>
      intro kv h
      simp [assocSet] at h
      left
      rw [h]
  | cons p t ih =>
      rcases p with ⟨k1, v1⟩
      intro kv h
      by_cases hk : (k1 == k) = true
      · simp [assocSet, hk] at h
        rcases h with h | h
        · left; rw [h]
        · right; exact List.mem_cons_of_mem _ h
      · have hk' : (k1 == k) = false := by
          cases hx : (k1 == k) with
          | true => exact absurd hx hk
          | false => rfl
        simp only [assocSet, hk', Bool.false_eq_true, if_false] at h
        rcases List.mem_cons.mp h with h | h
        · right; rw [h]; exact List.mem_cons_self _ _
        · rcases ih kv h with h2 | h2
          · left; exact h2
          · right; exact List.mem_cons_of_mem _ h2

theorem applyExtraVars_none (l : List (String × String)) :
    (∀ kv ∈ l, kv.1 ≠ "") → ∀ env, (applyExtraVars l env).1 = none := by
  induction l with
  | nil => intro _ env; rfl
  | cons kv t ih =>
      intro h env
      rcases kv with ⟨k, v⟩
      have hk : (k == "") = false := by simp [h (k, v) (by simp)]
      simp only [applyExtraVars, hk, Bool.false_eq_true, if_false]
      exact ih (fun x hx => h x (by simp [hx])) _

theorem classify_extra_keys (l : List EnvVar) :
    ∀ acc : EnvClassification, (∀ kv ∈ acc.extraVars, kv.1 ≠ "") →
      ∀ kv ∈ (classifyLoop l acc).extraVars, kv.1 ≠ "" := by
  induction l with
  | nil => intro acc hacc; exact hacc
  | cons ev rest ih =>
      intro acc hacc
      simp only [classifyLoop]
      split_ifs with hh hp he hx
      · exact ih _ hacc
      · exact ih _ hacc
      · exact ih _ hacc
      · refine ih _ ?_
        intro kv hkv
        rcases mem_assocSet acc.extraVars ev.Key ev.Value kv hkv with h | h
        · rw [h]; exact hx.1
        · exact hacc kv h
      · exact ih _ hacc

theorem any_filter_not {α : Type} (l : List α) (p : α → Bool) :
    (l.filter (fun x => !(p x))).any p = false := by
  induction l with
  | nil => rfl
  | cons a t ih => cases hpa : p a <;> simp [List.filter_cons, hpa, ih]

theorem activeReady_stat (b : BaseSDK) (v : String) (st : SDKState)
    (h : ActiveReady b v st) :
    fsStat st.fs (pathJoin b.InstallDir "current") = true := by
  obtain ⟨h1, _, h3⟩ := h
  unfold linkTarget at h3
  cases hf : st.fs.links.find? (fun l => l.1 == pathJoin b.InstallDir "current") with
  | none => rw [hf] at h3; cases h3
  | some l =>
      rw [hf] at h3
      have h3' : l.2 = pathJoin b.InstallDir v := by
        simpa using h3
      have hmem := List.mem_of_find?_eq_some hf
      have hpred := List.find?_some hf
      unfold fsStat
      rw [Bool.or_eq_true]
      right
      exact List.any_eq_true.mpr ⟨l, hmem, by simp [hpred, h3', List.elem_iff.mp h1]⟩

theorem activeReady_link_any (b : BaseSDK) (v : String) (st : SDKState)
    (h : ActiveReady b v st) :
    st.fs.links.any (fun l => l.1 == pathJoin b.InstallDir "current") = true := by
  obtain ⟨_, _, h3⟩ := h
  unfold linkTarget at h3
  cases hf : st.fs.links.find? (fun l => l.1 == pathJoin b.InstallDir "current") with
  | none => rw [hf] at h3; cases h3
  | some l =>
      have hmem := List.mem_of_find?_eq_some hf
      have hpred := List.find?_some hf
      exact List.any_eq_true.mpr ⟨l, hmem, hpred⟩

theorem setupEnv_ok (b : BaseSDK) (cfgE : String → String → Option (List EnvVar))
    (gbd : String → String) (st : SDKState) (v : String) (evs : List EnvVar)
    (hstat : fsStat st.fs (pathJoin b.InstallDir "current") = true)
    (hconf : cfgE v (pathJoin b.InstallDir "current") = some evs)
    (hhome : (classifyEnvVars evs).homeVar ≠ "") :
    (SetupEnv b cfgE gbd st v).1 = none ∧
    (SetupEnv b cfgE gbd st v).2.fs = st.fs ∧
    GetCurrentVersion (SetupEnv b cfgE gbd st v).2.config b.Name = v := by
  have hhb : ((classifyEnvVars evs).homeVar == "") = false := by simp [hhome]
  have hextra : ∀ kv ∈ (classifyEnvVars evs).extraVars, kv.1 ≠ "" :=
    classify_extra_keys evs ⟨"", "", "", [], []⟩ (by simp)
  have happ := applyExtraVars_none _ hextra
    (assocSet st.procEnv (classifyEnvVars evs).homeVar (classifyEnvVars evs).homePath)
  cases hres : applyExtraVars (classifyEnvVars evs).extraVars
      (assocSet st.procEnv (classifyEnvVars evs).homeVar (classifyEnvVars evs).homePath) with
  | mk e1 env2 =>
      rw [hres] at happ
      subst happ
      simp only [SetupEnv, hstat, Bool.not_true, Bool.false_eq_true, if_false, hconf,
        setUnixEnv, hhb, hres]
      refine ⟨?_, ?_, ?_⟩ <;> first | trivial | exact getCurrent_setCurrent _ _ _

theorem useFinish_active (b : BaseSDK) (cfgE : String → String → Option (List EnvVar))
    (gbd : String → String) (st : SDKState) (v : String) (evs : List EnvVar)
    (hA : ActiveReady b v st)
    (hconf : cfgE v (pathJoin b.InstallDir "current") = some evs)
    (hhome : (classifyEnvVars evs).homeVar ≠ "") :
    (useFinish b cfgE gbd st v (pathJoin b.InstallDir v)).1 = none ∧
    ActiveReady b v (useFinish b cfgE gbd st v (pathJoin b.InstallDir v)).2 ∧
    GetCurrentVersion (useFinish b cfgE gbd st v (pathJoin b.InstallDir v)).2.config b.Name
      = v := by
  obtain ⟨h1, h2, h3⟩ := hA
  have hstat := activeReady_stat b v st ⟨h1, h2, h3⟩
  have hany := activeReady_link_any b v st ⟨h1, h2, h3⟩
  have hrem : fsOsRemove st.fs (pathJoin b.InstallDir "current") =
      some ⟨st.fs.dirs,
        st.fs.links.filter (fun l => !(l.1 == pathJoin b.InstallDir "current"))⟩ := by
    simp [fsOsRemove, hany]
  have hanyf := any_filter_not st.fs.links (fun l => l.1 == pathJoin b.InstallDir "current")
  have h2' : pathJoin b.InstallDir "current" ∉ st.fs.dirs := by
    intro hm
    have hc : st.fs.dirs.contains (pathJoin b.InstallDir "current") = true :=
      List.elem_iff.mpr hm
    rw [hc] at h2
    cases h2
  have hsym : fsSymlink
      ⟨st.fs.dirs, st.fs.links.filter (fun l => !(l.1 == pathJoin b.InstallDir "current"))⟩
      (pathJoin b.InstallDir v) (pathJoin b.InstallDir "current") =
      some ⟨st.fs.dirs,
        (pathJoin b.InstallDir "current", pathJoin b.InstallDir v) ::
          st.fs.links.filter (fun l => !(l.1 == pathJoin b.InstallDir "current"))⟩ := by
    simp [fsSymlink, h2', hanyf]
  have hstat2 : fsStat
      (⟨st.fs.dirs,
        (pathJoin b.InstallDir "current", pathJoin b.InstallDir v) ::
          st.fs.links.filter (fun l => !(l.1 == pathJoin b.InstallDir "current"))⟩ : FS)
      (pathJoin b.InstallDir "current") = true := by
    unfold fsStat
    rw [Bool.or_eq_true]
    right
    exact List.any_eq_true.mpr
      ⟨(pathJoin b.InstallDir "current", pathJoin b.InstallDir v), by simp,
       by simp [List.elem_iff.mp h1]⟩
  have main : ∀ cfg : Config,
      (SetupEnv b cfgE gbd
        ⟨cfg, ⟨st.fs.dirs,
          (pathJoin b.InstallDir "current", pathJoin b.InstallDir v) ::
            st.fs.links.filter (fun l => !(l.1 == pathJoin b.InstallDir "current"))⟩,
         st.procEnv, st.procPath⟩ v).1 = none ∧
      ActiveReady b v (SetupEnv b cfgE gbd
        ⟨cfg, ⟨st.fs.dirs,
          (pathJoin b.InstallDir "current", pathJoin b.InstallDir v) ::
            st.fs.links.filter (fun l => !(l.1 == pathJoin b.InstallDir "current"))⟩,
         st.procEnv, st.procPath⟩ v).2 ∧
      GetCurrentVersion (SetupEnv b cfgE gbd
        ⟨cfg, ⟨st.fs.dirs,
          (pathJoin b.InstallDir "current", pathJoin b.InstallDir v) ::
            st.fs.links.filter (fun l => !(l.1 == pathJoin b.InstallDir "current"))⟩,
         st.procEnv, st.procPath⟩ v).2.config b.Name = v := by
    intro cfg
    have hs := setupEnv_ok b cfgE gbd
      ⟨cfg, ⟨st.fs.dirs,
        (pathJoin b.InstallDir "current", pathJoin b.InstallDir v) ::
          st.fs.links.filter (fun l => !(l.1 == pathJoin b.InstallDir "current"))⟩,
       st.procEnv, st.procPath⟩ v evs hstat2 hconf hhome
    refine ⟨hs.1, ?_, hs.2.2⟩
    refine ⟨?_, ?_, ?_⟩ <;> rw [hs.2.1]
    · exact h1
    · exact h2
    · simp [linkTarget, List.find?]
  unfold useFinish
  simp only [hstat, if_true, hrem, hsym]
  cases hsc : assocGet st.config.SDKs b.Name with
  | none => simpa using main st.config
  | some sc =>
      by_cases henv : (sc.EnvVars.length == 0) = true
      · simpa [henv] using main st.config
      · have henv' : (sc.EnvVars.length == 0) = false := by
          cases hx : (sc.EnvVars.length == 0) with
          | true => exact absurd hx henv
          | false => rfl
        simpa [henv'] using main (SetCurrentVersion st.config b.Name v)

theorem use_active (b : BaseSDK) (hAdd : String → String)
    (gL : SDKState → String → Option String)
    (inst : String → SDKState → Option String × SDKState)
    (cfgE : String → String → Option (List EnvVar)) (gbd : String → String)
    (st : SDKState) (X v : String) (evs : List EnvVar)
    (h0 : hAdd X = v) (hA : ActiveReady b v st)
    (hconf : cfgE v (pathJoin b.InstallDir "current") = some evs)
    (hhome : (classifyEnvVars evs).homeVar ≠ "") :
    (Use b hAdd gL inst cfgE gbd st X).1 = none ∧
    ActiveReady b v (Use b hAdd gL inst cfgE gbd st X).2 ∧
    GetCurrentVersion (Use b hAdd gL inst cfgE gbd st X).2.config b.Name = v := by
  have hstatV : fsStat st.fs (pathJoin b.InstallDir v) = true := by
    unfold fsStat
    rw [Bool.or_eq_true]
    left
    exact hA.1
  unfold Use
  rw [h0]
  simp only [hstatV, if_true]
  exact useFinish_active b cfgE gbd st v evs hA hconf hhome

/-- Claim C3: removing the installed, currently active version succeeds, clears
the current-version binding to empty, clears the stored environment-variable
snapshot, deletes the version's install directory, and resets the record's
InstallDir to empty while keeping CacheFilePath retrievable. -/
theorem c3_remove_active_version (b : BaseSDK) (st : SDKState) (v : String)
    (info : SDKVersionInfo)
    (h1 : GetVersionInfo st.config b.Name v = some info)
    (h2 : info.InstallDir ≠ "")
    (h3 : GetCurrentVersion st.config b.Name = v) :
    (RemoveSDKVersion b st v).1 = none ∧
    GetCurrentVersion (RemoveSDKVersion b st v).2.config b.Name = "" ∧
    GetSDKEnvVars (RemoveSDKVersion b st v).2.config b.Name = [] ∧
    fsStat (RemoveSDKVersion b st v).2.fs info.InstallDir = false ∧
    GetVersionInfo (RemoveSDKVersion b st v).2.config b.Name v =
      some ⟨"", info.CacheFilePath⟩ := by
  obtain ⟨sc, hsc⟩ : ∃ sc, assocGet st.config.SDKs b.Name = some sc := by
    cases hg : assocGet st.config.SDKs b.Name with
    | none => simp [GetVersionInfo, hg] at h1
    | some sc => exact ⟨sc, rfl⟩
  have hb : (info.InstallDir == "") = false := by simp [h2]
  have hred : RemoveSDKVersion b st v =
      (none,
       ⟨SetVersionInfo (SetCurrentVersion (SetSDKEnvVars st.config b.Name []) b.Name "")
          b.Name v ⟨"", info.CacheFilePath⟩,
        fsRemoveAll st.fs info.InstallDir, st.procEnv, st.procPath⟩) := by
    simp [RemoveSDKVersion, h1, hb, h3]
  rw [hred]
  refine ⟨rfl, ?_, ?_, fsStat_removeAll_self _ _, ?_⟩ <;>
    simp [SetSDKEnvVars, SetCurrentVersion, SetVersionInfo, GetCurrentVersion,
      GetSDKEnvVars, GetVersionInfo, hsc, assocGet_set_self]

/-- Claim C3 witness: removing the active version "1.21.0" of a concrete Go
configuration clears the binding and environment, deletes the directory, and
keeps the cache path retrievable. -/
theorem c3_witness :
    GetVersionInfo
        (⟨"/svm", [("go", "1.21.0")],
          [("go", ⟨"1.21.0", [⟨"GOROOT", "/svm/go/current"⟩],
            [("1.21.0", ⟨"/svm/go/1.21.0", "/svm/cache/go/go1.21.0.tar.gz"⟩)]⟩)]⟩ : Config)
        "go" "1.21.0" = some ⟨"/svm/go/1.21.0", "/svm/cache/go/go1.21.0.tar.gz"⟩ ∧
    ((RemoveSDKVersion ⟨"go", "/svm/go"⟩
        ⟨⟨"/svm", [("go", "1.21.0")],
          [("go", ⟨"1.21.0", [⟨"GOROOT", "/svm/go/current"⟩],
            [("1.21.0", ⟨"/svm/go/1.21.0", "/svm/cache/go/go1.21.0.tar.gz"⟩)]⟩)]⟩,
         ⟨["/svm/go/1.21.0"], []⟩, [], []⟩ "1.21.0").1 = none ∧
      GetCurrentVersion (RemoveSDKVersion ⟨"go", "/svm/go"⟩
        ⟨⟨"/svm", [("go", "1.21.0")],
          [("go", ⟨"1.21.0", [⟨"GOROOT", "/svm/go/current"⟩],
            [("1.21.0", ⟨"/svm/go/1.21.0", "/svm/cache/go/go1.21.0.tar.gz"⟩)]⟩)]⟩,
         ⟨["/svm/go/1.21.0"], []⟩, [], []⟩ "1.21.0").2.config "go" = "" ∧
      GetSDKEnvVars (RemoveSDKVersion ⟨"go", "/svm/go"⟩
        ⟨⟨"/svm", [("go", "1.21.0")],
          [("go", ⟨"1.21.0", [⟨"GOROOT", "/svm/go/current"⟩],
            [("1.21.0", ⟨"/svm/go/1.21.0", "/svm/cache/go/go1.21.0.tar.gz"⟩)]⟩)]⟩,
         ⟨["/svm/go/1.21.0"], []⟩, [], []⟩ "1.21.0").2.config "go" = [] ∧
      fsStat (RemoveSDKVersion ⟨"go", "/svm/go"⟩
        ⟨⟨"/svm", [("go", "1.21.0")],
          [("go", ⟨"1.21.0", [⟨"GOROOT", "/svm/go/current"⟩],
            [("1.21.0", ⟨"/svm/go/1.21.0", "/svm/cache/go/go1.21.0.tar.gz"⟩)]⟩)]⟩,
         ⟨["/svm/go/1.21.0"], []⟩, [], []⟩ "1.21.0").2.fs "/svm/go/1.21.0" = false ∧
      GetVersionInfo (RemoveSDKVersion ⟨"go", "/svm/go"⟩
        ⟨⟨"/svm", [("go", "1.21.0")],
          [("go", ⟨"1.21.0", [⟨"GOROOT", "/svm/go/current"⟩],
            [("1.21.0", ⟨"/svm/go/1.21.0", "/svm/cache/go/go1.21.0.tar.gz"⟩)]⟩)]⟩,
         ⟨["/svm/go/1.21.0"], []⟩, [], []⟩ "1.21.0").2.config "go" "1.21.0" =
        some ⟨"", "/svm/cache/go/go1.21.0.tar.gz"⟩) :=
  ⟨by decide,
   c3_remove_active_version ⟨"go", "/svm/go"⟩
     ⟨⟨"/svm", [("go", "1.21.0")],
       [("go", ⟨"1.21.0", [⟨"GOROOT", "/svm/go/current"⟩],
         [("1.21.0", ⟨"/svm/go/1.21.0", "/svm/cache/go/go1.21.0.tar.gz"⟩)]⟩)]⟩,
      ⟨["/svm/go/1.21.0"], []⟩, [], []⟩ "1.21.0"
     ⟨"/svm/go/1.21.0", "/svm/cache/go/go1.21.0.tar.gz"⟩
     (by decide) (by decide) (by decide)⟩

/-- Claim C6: activating an already-active installed version again still
succeeds, still re-creates the "current" indirection pointing at the version
directory, and still re-applies the environment, leaving the same
current-version binding and a valid (non-dangling) indirection after the
second call as after the first. -/
theorem c6_use_idempotent (b : BaseSDK) (hAdd : String → String)
    (gL : SDKState → String → Option String)
    (inst : String → SDKState → Option String × SDKState)
    (cfgE : String → String → Option (List EnvVar)) (gbd : String → String)
    (st : SDKState) (X v : String) (evs : List EnvVar)
    (h0 : hAdd X = v)
    (hA : ActiveReady b v st)
    (hcur : GetCurrentVersion st.config b.Name = v)
    (hconf : cfgE v (pathJoin b.InstallDir "current") = some evs)
    (hhome : (classifyEnvVars evs).homeVar ≠ "") :
    (Use b hAdd gL inst cfgE gbd st X).1 = none ∧
    GetCurrentVersion (Use b hAdd gL inst cfgE gbd st X).2.config b.Name = v ∧
    linkTarget (Use b hAdd gL inst cfgE gbd st X).2.fs (pathJoin b.InstallDir "current") =
      some (pathJoin b.InstallDir v) ∧
    (Use b hAdd gL inst cfgE gbd (Use b hAdd gL inst cfgE gbd st X).2 X).1 = none ∧
    GetCurrentVersion
        (Use b hAdd gL inst cfgE gbd (Use b hAdd gL inst cfgE gbd st X).2 X).2.config b.Name =
      GetCurrentVersion (Use b hAdd gL inst cfgE gbd st X).2.config b.Name ∧
    linkTarget (Use b hAdd gL inst cfgE gbd (Use b hAdd gL inst cfgE gbd st X).2 X).2.fs
        (pathJoin b.InstallDir "current") = some (pathJoin b.InstallDir v) ∧
    fsStat (Use b hAdd gL inst cfgE gbd (Use b hAdd gL inst cfgE gbd st X).2 X).2.fs
        (pathJoin b.InstallDir "current") = true := by
  have r1 := use_active b hAdd gL inst cfgE gbd st X v evs h0 hA hconf hhome
  have r2 := use_active b hAdd gL inst cfgE gbd (Use b hAdd gL inst cfgE gbd st X).2 X v evs
    h0 r1.2.1 hconf hhome
  refine ⟨r1.1, r1.2.2, r1.2.1.2.2, r2.1, ?_, r2.2.1.2.2,
    activeReady_stat _ _ _ r2.2.1⟩
  rw [r2.2.2, r1.2.2]

/-- Claim C6 witness: re-activating the already-active Java version "17.0.2"
on a concrete state succeeds on both calls and leaves a valid indirection. -/
theorem c6_witness :
    ActiveReady ⟨"java", "/svm/java"⟩ "17.0.2"
      ⟨⟨"/svm", [("java", "17.0.2")],
        [("java", ⟨"17.0.2", [⟨"JAVA_HOME", "/svm/java/current"⟩],
          [("17.0.2", ⟨"/svm/java/17.0.2", ""⟩)]⟩)]⟩,
       ⟨["/svm/java/17.0.2"], [("/svm/java/current", "/svm/java/17.0.2")]⟩,
       [], ["/usr/bin"]⟩ ∧
    (Use ⟨"java", "/svm/java"⟩ (fun s => s) (fun _ _ => none)
        (fun _ s => (some "unreachable", s))
        (fun _ _ => some [⟨"JAVA_HOME", "/svm/java/current"⟩,
          ⟨"PATH", "/svm/java/current/bin"⟩, ⟨"EXCLUDE_KEYWORDS", "java,jdk,openjdk"⟩])
        (fun d => pathJoin d "bin")
        ⟨⟨"/svm", [("java", "17.0.2")],
          [("java", ⟨"17.0.2", [⟨"JAVA_HOME", "/svm/java/current"⟩],
            [("17.0.2", ⟨"/svm/java/17.0.2", ""⟩)]⟩)]⟩,
         ⟨["/svm/java/17.0.2"], [("/svm/java/current", "/svm/java/17.0.2")]⟩,
         [], ["/usr/bin"]⟩ "17.0.2").1 = none ∧
    (Use ⟨"java", "/svm/java"⟩ (fun s => s) (fun _ _ => none)
        (fun _ s => (some "unreachable", s))
        (fun _ _ => some [⟨"JAVA_HOME", "/svm/java/current"⟩,
          ⟨"PATH", "/svm/java/current/bin"⟩, ⟨"EXCLUDE_KEYWORDS", "java,jdk,openjdk"⟩])
        (fun d => pathJoin d "bin")
        (Use ⟨"java", "/svm/java"⟩ (fun s => s) (fun _ _ => none)
          (fun _ s => (some "unreachable", s))
          (fun _ _ => some [⟨"JAVA_HOME", "/svm/java/current"⟩,
            ⟨"PATH", "/svm/java/current/bin"⟩, ⟨"EXCLUDE_KEYWORDS", "java,jdk,openjdk"⟩])
          (fun d => pathJoin d "bin")
          ⟨⟨"/svm", [("java", "17.0.2")],
            [("java", ⟨"17.0.2", [⟨"JAVA_HOME", "/svm/java/current"⟩],
              [("17.0.2", ⟨"/svm/java/17.0.2", ""⟩)]⟩)]⟩,
           ⟨["/svm/java/17.0.2"], [("/svm/java/current", "/svm/java/17.0.2")]⟩,
           [], ["/usr/bin"]⟩ "17.0.2").2 "17.0.2").1 = none ∧
    linkTarget (Use ⟨"java", "/svm/java"⟩ (fun s => s) (fun _ _ => none)
        (fun _ s => (some "unreachable", s))
        (fun _ _ => some [⟨"JAVA_HOME", "/svm/java/current"⟩,
          ⟨"PATH", "/svm/java/current/bin"⟩, ⟨"EXCLUDE_KEYWORDS", "java,jdk,openjdk"⟩])
        (fun d => pathJoin d "bin")
        (Use ⟨"java", "/svm/java"⟩ (fun s => s) (fun _ _ => none)
          (fun _ s => (some "unreachable", s))
          (fun _ _ => some [⟨"JAVA_HOME", "/svm/java/current"⟩,
            ⟨"PATH", "/svm/java/current/bin"⟩, ⟨"EXCLUDE_KEYWORDS", "java,jdk,openjdk"⟩])
          (fun d => pathJoin d "bin")
          ⟨⟨"/svm", [("java", "17.0.2")],
            [("java", ⟨"17.0.2", [⟨"JAVA_HOME", "/svm/java/current"⟩],
              [("17.0.2", ⟨"/svm/java/17.0.2", ""⟩)]⟩)]⟩,
           ⟨["/svm/java/17.0.2"], [("/svm/java/current", "/svm/java/17.0.2")]⟩,
           [], ["/usr/bin"]⟩ "17.0.2").2 "17.0.2").2.fs
      (pathJoin "/svm/java" "current") = some (pathJoin "/svm/java" "17.0.2") := by
  have h := c6_use_idempotent ⟨"java", "/svm/java"⟩ (fun s => s) (fun _ _ => none)
    (fun _ s => (some "unreachable", s))
    (fun _ _ => some [⟨"JAVA_HOME", "/svm/java/current"⟩,
      ⟨"PATH", "/svm/java/current/bin"⟩, ⟨"EXCLUDE_KEYWORDS", "java,jdk,openjdk"⟩])
    (fun d => pathJoin d "bin")
    ⟨⟨"/svm", [("java", "17.0.2")],
      [("java", ⟨"17.0.2", [⟨"JAVA_HOME", "/svm/java/current"⟩],
        [("17.0.2", ⟨"/svm/java/17.0.2", ""⟩)]⟩)]⟩,
     ⟨["/svm/java/17.0.2"], [("/svm/java/current", "/svm/java/17.0.2")]⟩,
     [], ["/usr/bin"]⟩ "17.0.2" "17.0.2"
    [⟨"JAVA_HOME", "/svm/java/current"⟩, ⟨"PATH", "/svm/java/current/bin"⟩,
     ⟨"EXCLUDE_KEYWORDS", "java,jdk,openjdk"⟩]
    rfl (by decide) (by decide) rfl (by decide)
  exact ⟨by decide, h.1, h.2.2.2.1, h.2.2.2.2.2.1⟩

end SVM
